import Mathlib

/-!
Verification of the mdse markdown search service against its design
specification.  The Python sources are shallowly embedded: strings are
`List Char`, the SQLite database is an explicit record of table rows, and
each Python function that the claims mention is translated into a Lean
function of the same name.  FTS5 internals (the `MATCH` operator and the
`bm25` ranking function) are not part of the repository and are taken as
abstract parameters of the query model.
-/

/-- Character predicate used by both segmenters (`app/indexer.py` line 66 and
`app/search_service.py` line 79): `'一' <= char <= '鿿'`, the CJK
Unified Ideographs base block. -/
def isCJKChar (c : Char) : Bool :=
  decide (0x4e00 ≤ c.toNat) && decide (c.toNat ≤ 0x9fff)

/-- Membership in the four-character whitespace string `' \t\n\r'` that the
segmenters and the phrase splitter test against. -/
def isSegWS (c : Char) : Bool :=
  c == ' ' || c == '\t' || c == '\n' || c == '\r'

/-- The whitespace class of Python `str.split()` / `str.strip()` (Unicode
whitespace per `str.isspace`). -/
def isPySpace (c : Char) : Bool :=
  c == ' ' || c == '\t' || c == '\n' || c == '\r' ||
  c.toNat == 0xb || c.toNat == 0xc ||
  (decide (0x1c ≤ c.toNat) && decide (c.toNat ≤ 0x1f)) ||
  c.toNat == 0x85 || c.toNat == 0xa0 || c.toNat == 0x1680 ||
  (decide (0x2000 ≤ c.toNat) && decide (c.toNat ≤ 0x200a)) ||
  c.toNat == 0x2028 || c.toNat == 0x2029 || c.toNat == 0x202f ||
  c.toNat == 0x205f || c.toNat == 0x3000

/-- One character of Python `str.split()` with no separator: accumulate the
current run of non-whitespace characters, flushing it when whitespace is
met. -/
def splitStep (st : List (List Char) × List Char) (c : Char) :
    List (List Char) × List Char :=
  if isPySpace c then (if st.2 = [] then st.1 else st.1 ++ [st.2], [])
  else (st.1, st.2 ++ [c])

/-- State of the whitespace splitter after scanning a string. -/
def splitState (l : List Char) : List (List Char) × List Char :=
  l.foldl splitStep ([], [])

/-- Flush the pending partial token of a splitter state. -/
def splitFlush (st : List (List Char) × List Char) : List (List Char) :=
  if st.2 = [] then st.1 else st.1 ++ [st.2]

/-- Python `str.split()` with no arguments: the whitespace-delimited tokens
of a string, empty tokens discarded. -/
def pySplit (l : List Char) : List (List Char) :=
  splitFlush (splitState l)

/-- Python `str.strip()`: remove leading and trailing whitespace. -/
def pyStrip (l : List Char) : List Char :=
  ((l.dropWhile isPySpace).reverse.dropWhile isPySpace).reverse

/-- Whether `result[-1]` is one of `' \t\n\r'` (the test
`result[-1] not in ' \t\n\r'` negated), `False` on an empty list. -/
def lastIsSegWS (res : List Char) : Bool :=
  match res.getLast? with
  | some c => isSegWS c
  | none => false

/-- Loop body of `_segment_chinese_text` (`app/indexer.py` lines 65-81):
given the current character, the `prev_is_cjk` flag and the accumulated
`result`, produce the new `result`. -/
def segTextStep (c : Char) (pc : Bool) (res : List Char) : List Char :=
  let cjk := isCJKChar c
  let ws := isSegWS c
  let res1 :=
    if pc && !cjk && !ws && !res.isEmpty && !(res.getLast? == some ' ') then
      res ++ [' ']
    else if !pc && cjk && !res.isEmpty && !lastIsSegWS res then
      res ++ [' ']
    else res
  let res2 := res1 ++ [c]
  if cjk && !ws then res2 ++ [' '] else res2

/-- The loop of `_segment_chinese_text` over the remaining characters. -/
def segTextGo : List Char → Bool → List Char → List Char
  | [], _, res => res
  | c :: cs, pc, res => segTextGo cs (isCJKChar c) (segTextStep c pc res)

/-- `_segment_chinese_text` (`app/indexer.py` lines 44-83): insert a space
after every CJK character and at CJK/non-CJK boundaries. -/
def segment_chinese_text (l : List Char) : List Char :=
  segTextGo l false []

/-- Loop body of `_segment_chinese_query` (`app/search_service.py` lines
78-93).  It differs from the text-side body in the first boundary branch
(no emptiness / trailing-space guard) and in appending the trailing space
unconditionally for CJK characters. -/
def segQueryStep (c : Char) (pc : Bool) (res : List Char) : List Char :=
  let cjk := isCJKChar c
  let res1 :=
    if pc && !cjk && !isSegWS c then
      res ++ [' ']
    else if !pc && cjk && !res.isEmpty && !lastIsSegWS res then
      res ++ [' ']
    else res
  let res2 := res1 ++ [c]
  if cjk then res2 ++ [' '] else res2

/-- The loop of `_segment_chinese_query` over the remaining characters. -/
def segQueryGo : List Char → Bool → List Char → List Char
  | [], _, res => res
  | c :: cs, pc, res => segQueryGo cs (isCJKChar c) (segQueryStep c pc res)

/-- `_segment_chinese_query` (`app/search_service.py` lines 58-95); the
query side additionally strips the final string. -/
def segment_chinese_query (l : List Char) : List Char :=
  pyStrip (segQueryGo l false [])

/-! Splitter lemmas used to compare the two segmenters. -/

theorem splitState_append (l : List Char) (c : Char) :
    splitState (l ++ [c]) = splitStep (splitState l) c := by
  simp [splitState, List.foldl_append]

theorem getLast?_none_iff (l : List Char) : l.getLast? = none ↔ l = [] :=
  List.getLast?_eq_none_iff

theorem isEmpty_eq_of_getLast?_eq {t q : List Char}
    (h : t.getLast? = q.getLast?) : t.isEmpty = q.isEmpty := by
  cases t with
  | nil => cases q with
    | nil => rfl
    | cons b q' =>
      exfalso
      have hq : (b :: q').getLast? = none := h.symm
      rw [getLast?_none_iff] at hq
      exact List.cons_ne_nil b q' hq
  | cons a t' => cases q with
    | nil =>
      exfalso
      have ht : (a :: t').getLast? = none := h
      rw [getLast?_none_iff] at ht
      exact List.cons_ne_nil a t' ht
    | cons b q' => rfl

theorem splitState_snd_of_last_space {l : List Char}
    (h : l.getLast? = some ' ') : (splitState l).2 = [] := by
  induction l using List.reverseRecOn with
  | nil => simp at h
  | append_singleton l' a _ =>
    have ha : a = ' ' := by
      have h2 := List.getLast?_concat (a := a) l'
      rw [h2] at h
      exact Option.some.inj h
    subst ha
    rw [splitState_append]
    simp [splitStep, isPySpace]

theorem splitState_append_space_of_last_space {l : List Char}
    (h : l.getLast? = some ' ') : splitState (l ++ [' ']) = splitState l := by
  have h2 := splitState_snd_of_last_space h
  rw [splitState_append]
  cases hst : splitState l with
  | mk ts cur =>
    rw [hst] at h2
    simp at h2
    subst h2
    simp [splitStep, isPySpace]

theorem isCJKChar_not_isSegWS {c : Char} (h : isCJKChar c = true) :
    isSegWS c = false := by
  simp only [isCJKChar, Bool.and_eq_true, decide_eq_true_eq] at h
  cases hw : isSegWS c
  · rfl
  · exfalso
    simp only [isSegWS, Bool.or_eq_true, beq_iff_eq] at hw
    rcases hw with (((rfl | rfl) | rfl) | rfl) <;> exact absurd h.1 (by decide)

/-- Relation maintained between the two segmenter accumulators while they
scan the same input: equal splitter states, equal last characters, and a
trailing space whenever the previous character was CJK. -/
def SegInv (pc : Bool) (t q : List Char) : Prop :=
  splitState t = splitState q ∧ t.getLast? = q.getLast? ∧
    (pc = true → t.getLast? = some ' ')

/-- Boundary-insertion stage of the text-side loop body (the two `elif`
branches before `result.append(char)` in `app/indexer.py` lines 70-73). -/
def segTextBoundary (c : Char) (pc : Bool) (res : List Char) : List Char :=
  if pc && !isCJKChar c && !isSegWS c && !res.isEmpty
      && !(res.getLast? == some ' ') then
    res ++ [' ']
  else if !pc && isCJKChar c && !res.isEmpty && !lastIsSegWS res then
    res ++ [' ']
  else res

/-- Boundary-insertion stage of the query-side loop body
(`app/search_service.py` lines 82-85). -/
def segQueryBoundary (c : Char) (pc : Bool) (res : List Char) : List Char :=
  if pc && !isCJKChar c && !isSegWS c then
    res ++ [' ']
  else if !pc && isCJKChar c && !res.isEmpty && !lastIsSegWS res then
    res ++ [' ']
  else res

theorem segTextStep_eq (c : Char) (pc : Bool) (res : List Char) :
    segTextStep c pc res =
      (if isCJKChar c && !isSegWS c then segTextBoundary c pc res ++ [c] ++ [' ']
       else segTextBoundary c pc res ++ [c]) := rfl

theorem segQueryStep_eq (c : Char) (pc : Bool) (res : List Char) :
    segQueryStep c pc res =
      (if isCJKChar c then segQueryBoundary c pc res ++ [c] ++ [' ']
       else segQueryBoundary c pc res ++ [c]) := rfl

theorem segBoundary_inv (c : Char) (pc : Bool) {t q : List Char}
    (hst : splitState t = splitState q) (hlast : t.getLast? = q.getLast?)
    (hpc : pc = true → t.getLast? = some ' ') :
    splitState (segTextBoundary c pc t) = splitState (segQueryBoundary c pc q) ∧
      (segTextBoundary c pc t).getLast? = (segQueryBoundary c pc q).getLast? := by
  cases pc with
  | true =>
    have hlt : t.getLast? = some ' ' := hpc rfl
    have hlq : q.getLast? = some ' ' := hlast ▸ hlt
    have hT : segTextBoundary c true t = t := by
      simp [segTextBoundary, hlt]
    by_cases hcw : (!isCJKChar c && !isSegWS c) = true
    · have hQ : segQueryBoundary c true q = q ++ [' '] := by
        simp only [segQueryBoundary, Bool.true_and]
        rw [Bool.and_eq_true] at hcw
        rw [hcw.1, hcw.2]
        simp
      rw [hT, hQ]
      constructor
      · rw [splitState_append_space_of_last_space hlq, hst]
      · rw [List.getLast?_concat, hlt]
    · have hQ : segQueryBoundary c true q = q := by
        simp only [segQueryBoundary, Bool.true_and]
        rw [Bool.and_eq_true] at hcw
        push_neg at hcw
        by_cases h1 : isCJKChar c = true
        · simp [h1]
        · have h1' : isCJKChar c = false := by
            revert h1; cases isCJKChar c <;> simp
          have h2 : isSegWS c = true := by
            rcases hcw (by rw [h1']; rfl) with h3
            revert h3; cases isSegWS c <;> simp
          simp [h1', h2]
      rw [hT, hQ]
      exact ⟨hst, hlast⟩
  | false =>
    have hie : t.isEmpty = q.isEmpty := isEmpty_eq_of_getLast?_eq hlast
    have hlw : lastIsSegWS t = lastIsSegWS q := by
      simp only [lastIsSegWS, hlast]
    have hTe : segTextBoundary c false t =
        (if isCJKChar c && !t.isEmpty && !lastIsSegWS t then t ++ [' '] else t) := by
      simp [segTextBoundary, Bool.and_assoc]
    have hQe : segQueryBoundary c false q =
        (if isCJKChar c && !q.isEmpty && !lastIsSegWS q then q ++ [' '] else q) := by
      simp [segQueryBoundary, Bool.and_assoc]
    rw [hTe, hQe, ← hie, ← hlw]
    by_cases h2 : (isCJKChar c && !t.isEmpty && !lastIsSegWS t) = true
    · rw [if_pos h2, if_pos h2]
      constructor
      · rw [splitState_append, splitState_append, hst]
      · rw [List.getLast?_concat, List.getLast?_concat]
    · rw [if_neg h2, if_neg h2]
      exact ⟨hst, hlast⟩

theorem segInv_step (c : Char) (pc : Bool) {t q : List Char}
    (h : SegInv pc t q) :
    SegInv (isCJKChar c) (segTextStep c pc t) (segQueryStep c pc q) := by
  obtain ⟨hst, hlast, hpc⟩ := h
  obtain ⟨hst1, hlast1⟩ := segBoundary_inv c pc hst hlast hpc
  have hst2 : splitState (segTextBoundary c pc t ++ [c])
      = splitState (segQueryBoundary c pc q ++ [c]) := by
    rw [splitState_append, splitState_append, hst1]
  rw [segTextStep_eq, segQueryStep_eq]
  by_cases hc : isCJKChar c = true
  · have hw : isSegWS c = false := isCJKChar_not_isSegWS hc
    rw [hc, hw]
    simp only [Bool.not_false, Bool.and_true, if_pos rfl, if_true]
    refine ⟨?_, ?_, ?_⟩
    · simp only [splitState_append]
      rw [hst1]
    · rw [List.getLast?_concat, List.getLast?_concat]
    · intro _
      rw [List.getLast?_concat]
  · have hc' : isCJKChar c = false := by
      revert hc; cases isCJKChar c <;> simp
    rw [hc']
    simp only [Bool.false_and, if_neg (by simp : ¬ (false = true))]
    refine ⟨hst2, ?_, ?_⟩
    · rw [List.getLast?_concat, List.getLast?_concat]
    · intro hcc
      exact absurd hcc (by simp)

theorem segGo_state_eq : ∀ (cs : List Char) (pc : Bool) (t q : List Char),
    SegInv pc t q →
    splitState (segTextGo cs pc t) = splitState (segQueryGo cs pc q)
  | [], _, _, _, h => h.1
  | c :: cs, pc, _, _, h =>
    segGo_state_eq cs (isCJKChar c) _ _ (segInv_step c pc h)

theorem splitState_dropWhile (l : List Char) :
    splitState (l.dropWhile isPySpace) = splitState l := by
  induction l with
  | nil => rfl
  | cons c cs ih =>
    by_cases hc : isPySpace c = true
    · have hd : (c :: cs).dropWhile isPySpace = cs.dropWhile isPySpace := by
        simp [List.dropWhile_cons, hc]
      have hstep : splitStep ([], []) c = ([], []) := by
        simp [splitStep, hc]
      rw [hd, ih]
      show splitState cs = List.foldl splitStep (splitStep ([], []) c) cs
      rw [hstep]
      rfl
    · have hd : (c :: cs).dropWhile isPySpace = c :: cs := by
        simp [List.dropWhile_cons, hc]
      rw [hd]

theorem pySplit_append_space {l : List Char} {c : Char}
    (hc : isPySpace c = true) : pySplit (l ++ [c]) = pySplit l := by
  unfold pySplit
  rw [splitState_append]
  cases hst : splitState l with
  | mk ts cur =>
    by_cases h2 : cur = []
    · subst h2; simp [splitStep, splitFlush, hc]
    · simp [splitStep, splitFlush, hc, h2]

theorem pySplit_dropTrailing (l : List Char) :
    pySplit ((l.reverse.dropWhile isPySpace).reverse) = pySplit l := by
  induction l using List.reverseRecOn with
  | nil => rfl
  | append_singleton l' a ih =>
    by_cases ha : isPySpace a = true
    · have h1 : (l' ++ [a]).reverse.dropWhile isPySpace
          = l'.reverse.dropWhile isPySpace := by
        simp [List.reverse_append, List.dropWhile_cons, ha]
      rw [h1, ih, pySplit_append_space ha]
    · have h1 : (l' ++ [a]).reverse.dropWhile isPySpace = a :: l'.reverse := by
        simp [List.reverse_append, List.dropWhile_cons, ha]
      rw [h1]
      simp

theorem pySplit_pyStrip (l : List Char) : pySplit (pyStrip l) = pySplit l := by
  unfold pyStrip
  rw [pySplit_dropTrailing (l.dropWhile isPySpace)]
  unfold pySplit
  rw [splitState_dropWhile]

/-- C1: for every input string, splitting `_segment_chinese_text(s)` on
whitespace yields exactly the same ordered token list as splitting
`_segment_chinese_query(s)` on whitespace — a string tokenizes identically
whether it is being indexed or queried. -/
theorem c1_segmenters_agree (l : List Char) :
    pySplit (segment_chinese_text l) = pySplit (segment_chinese_query l) := by
  unfold segment_chinese_text segment_chinese_query
  rw [pySplit_pyStrip]
  unfold pySplit
  rw [segGo_state_eq l false [] []
    ⟨rfl, rfl, fun h => absurd h (by simp)⟩]

/-- C5 counterexample: segmenting `"Python机器学习"` with
`_segment_chinese_text` and splitting on whitespace does not yield the
case-folded term `"python"`; the segmenter never lowercases. -/
theorem c5_counterexample :
    pySplit (segment_chinese_text ("Python机器学习".data)) ≠
      ["python".data, "机".data, "器".data, "学".data, "习".data] := by
  decide

/-- C5 (amended): segmenting `"Python机器学习"` with
`_segment_chinese_text` and splitting on whitespace yields exactly
`["Python", "机", "器", "学", "习"]` — a boundary at every CJK/non-CJK
transition, each CJK character its own token, and the Latin run one token
in its original case (case folding is performed later by the FTS5
`unicode61` tokenizer, not by the segmenter). -/
theorem c5_amended_tokens :
    pySplit (segment_chinese_text ("Python机器学习".data)) =
      ["Python".data, "机".data, "器".data, "学".data, "习".data] := by
  decide

theorem segTextGo_all_nonCJK :
    ∀ (cs : List Char), (∀ c ∈ cs, isCJKChar c = false) →
      ∀ res : List Char, segTextGo cs false res = res ++ cs
  | [], _, res => by simp [segTextGo]
  | c :: cs, h, res => by
    have hc : isCJKChar c = false := h c (List.mem_cons_self c cs)
    have hstep : segTextStep c false res = res ++ [c] := by
      rw [segTextStep_eq, hc]
      simp [segTextBoundary, hc]
    show segTextGo cs (isCJKChar c) (segTextStep c false res) = res ++ (c :: cs)
    rw [hc, hstep,
      segTextGo_all_nonCJK cs (fun x hx => h x (List.mem_cons_of_mem c hx)) (res ++ [c])]
    simp

theorem segQueryGo_all_nonCJK :
    ∀ (cs : List Char), (∀ c ∈ cs, isCJKChar c = false) →
      ∀ res : List Char, segQueryGo cs false res = res ++ cs
  | [], _, res => by simp [segQueryGo]
  | c :: cs, h, res => by
    have hc : isCJKChar c = false := h c (List.mem_cons_self c cs)
    have hstep : segQueryStep c false res = res ++ [c] := by
      rw [segQueryStep_eq, hc]
      simp [segQueryBoundary, hc]
    show segQueryGo cs (isCJKChar c) (segQueryStep c false res) = res ++ (c :: cs)
    rw [hc, hstep,
      segQueryGo_all_nonCJK cs (fun x hx => h x (List.mem_cons_of_mem c hx)) (res ++ [c])]
    simp

/-- C10: both segmenters classify a code point as CJK exactly when it lies
in U+4E00–U+9FFF; over a string containing no such character (for instance
Extension A ideographs or kana) neither segmenter inserts any boundary, so
the characters stay grouped in ordinary token runs; and an in-range
character does get a per-character boundary after it. -/
theorem c10_cjk_classification (l : List Char)
    (h : ∀ c ∈ l, isCJKChar c = false) :
    segment_chinese_text l = l ∧
    segment_chinese_query l = pyStrip l ∧
    (∀ c : Char, isCJKChar c =
      (decide (0x4e00 ≤ c.toNat) && decide (c.toNat ≤ 0x9fff))) ∧
    (∀ c : Char, isCJKChar c = true → segment_chinese_text [c] = [c, ' ']) := by
  refine ⟨?_, ?_, fun c => rfl, ?_⟩
  · show segTextGo l false [] = l
    rw [segTextGo_all_nonCJK l h []]
    simp
  · show pyStrip (segQueryGo l false []) = pyStrip l
    rw [segQueryGo_all_nonCJK l h []]
    simp
  · intro c hc
    have hw := isCJKChar_not_isSegWS hc
    show segTextGo [c] false [] = [c, ' ']
    simp [segTextGo, segTextStep_eq, segTextBoundary, hc, hw]

/-- Witness for C10 at the concrete string `"㐀aあ"` (an Extension A
ideograph, a Latin letter and a kana character, all outside the base
block): the text segmenter leaves it untouched. -/
theorem c10_witness :
    segment_chinese_text ['㐀', 'a', 'あ'] = ['㐀', 'a', 'あ'] :=
  (c10_cjk_classification ['㐀', 'a', 'あ'] (by decide)).1

/-- Summary construction of `extract_text_from_md` (`app/indexer.py` line
144): `summary = content[:200] if content else ""`, where `content` is the
stripped markdown body (line 137). -/
def summary_of (content : List Char) : List Char :=
  if content = [] then [] else content.take 200

/-- C9: for every parsed document body, the summary has at most 200 code
points, and whenever the stripped body has at least 200 code points the
summary is exactly its first 200 code points. -/
theorem c9_summary (raw : List Char) :
    (summary_of (pyStrip raw)).length ≤ 200 ∧
    (200 ≤ (pyStrip raw).length →
      summary_of (pyStrip raw) = (pyStrip raw).take 200) := by
  constructor
  · unfold summary_of
    split
    · simp
    · rw [List.length_take]
      exact min_le_left _ _
  · intro h
    unfold summary_of
    split
    · next heq =>
        rw [heq] at h
        simp at h
    · rfl

set_option maxRecDepth 4000 in
/-- Witness for C9 at a concrete 250-character body. -/
theorem c9_witness :
    summary_of (pyStrip (List.replicate 250 'a')) =
      (pyStrip (List.replicate 250 'a')).take 200 :=
  (c9_summary (List.replicate 250 'a')).2 (by decide)

/-! Database model: the two SQLite tables and the indexer operations. -/

/-- Row of the `docs` table (schema in `app/db.py` lines 56-63):
AUTOINCREMENT integer primary key, unique path, title, summary, mtime. -/
structure DocsRow where
  id : Nat
  path : String
  title : String
  summary : String
  mtime : Int
deriving DecidableEq

/-- Row of the `docs_fts` FTS5 virtual table (`app/db.py` lines 67-74),
together with its implicit SQLite rowid. -/
structure FtsRow where
  rowid : Nat
  doc_id : Nat
  title : String
  content : String
  path : String
deriving DecidableEq

/-- State of the database as seen through one connection: the two tables,
the `docs` AUTOINCREMENT counter, and the connection-level value of
`sqlite3_last_insert_rowid` (0 while the connection has never inserted a
row). -/
structure DBState where
  docs : List DocsRow
  fts : List FtsRow
  seq : Nat
  lastInsertRowid : Nat
deriving DecidableEq

/-- Freshly initialised database on a fresh connection. -/
def emptyDB : DBState := ⟨[], [], 0, 0⟩

/-- A markdown file as the indexer sees it: relative path, filename stem,
the outcome of frontmatter parsing (`none` when parsing raises; otherwise
the optional frontmatter `title` and the raw body), the outcome of
`os.path.getmtime` (`none` when it raises because the file vanished), and
whether `validate_path_traversal` accepts the path. -/
structure MdFile where
  path : String
  stem : String
  parse : Option (Option String × String)
  mtime : Option Int
  secOk : Bool
deriving DecidableEq

/-- `extract_text_from_md` (`app/indexer.py` lines 86-151): on success,
the title (frontmatter `title` or the filename stem), the segmented title,
the 200-code-point summary, the stripped body and the segmented body; on
any parsing exception, the fallback `(stem, stem, "", "", "")`. -/
def extract_text_from_md (f : MdFile) :
    String × String × String × String × String :=
  match f.parse with
  | some (topt, raw) =>
    let title := topt.getD f.stem
    let content := pyStrip raw.data
    (title, String.mk (segment_chinese_text title.data),
     String.mk (summary_of content), String.mk content,
     String.mk (segment_chinese_text content))
  | none => (f.stem, f.stem, "", "", "")

/-- The `INSERT INTO docs ... ON CONFLICT(path) DO UPDATE` statement of
`index_file` (`app/indexer.py` lines 192-199) followed by the read of
`cursor.lastrowid` (line 202).  On the insert path SQLite assigns the next
AUTOINCREMENT id and sets the connection's last-insert rowid to it.  On
the update path the existing row is overwritten in place and the
connection's last-insert rowid is untouched — and, because the statement
is an INSERT, CPython reports that stale connection-level value as
`cursor.lastrowid` (0 only while the connection never inserted anything).
This semantics is that of CPython 3.11 with SQLite 3.40. -/
def upsertDocs (db : DBState) (p title summary : String) (mtime : Int) :
    DBState × Nat :=
  match db.docs.find? (fun d => d.path == p) with
  | some _ =>
    ({ db with docs := db.docs.map (fun d =>
        if d.path == p then
          { d with title := title, summary := summary, mtime := mtime }
        else d) },
     db.lastInsertRowid)
  | none =>
    let newId := db.seq + 1
    ({ db with
        docs := db.docs ++ [⟨newId, p, title, summary, mtime⟩],
        seq := newId,
        lastInsertRowid := newId },
     newId)

/-- Largest rowid present in the FTS table (0 when empty); SQLite gives a
fresh insert rowid one greater. -/
def ftsMaxRowid (fts : List FtsRow) : Nat :=
  fts.foldl (fun m f => max m f.rowid) 0

/-- `index_file` (`app/indexer.py` lines 154-219): validate the path (a
security failure is logged and returns with the database untouched),
extract the document fields, read the mtime (`none` models the call
raising on a vanished file, with no database write performed yet), then
upsert the `docs` row, take `cursor.lastrowid` as the document id — with
the `SELECT id FROM docs WHERE path = ?` fallback only when it is 0 —
delete the FTS rows with that doc id and insert the fresh postings row. -/
def index_file (db : DBState) (f : MdFile) : Option DBState :=
  if f.secOk = false then some db
  else
    let ex := extract_text_from_md f
    let title := ex.1
    let titleSeg := ex.2.1
    let summary := ex.2.2.1
    let contentSeg := ex.2.2.2.2
    match f.mtime with
    | none => none
    | some m =>
      let up := upsertDocs db f.path title summary m
      let db1 := up.1
      let lastrowid := up.2
      let docId :=
        if lastrowid = 0 then
          ((db1.docs.find? (fun d => d.path == f.path)).map
            (fun d => d.id)).getD 0
        else lastrowid
      let db2 := { db1 with
        fts := db1.fts.filter (fun r => !(r.doc_id == docId)) }
      let rowid := ftsMaxRowid db2.fts + 1
      some { db2 with
        fts := db2.fts ++ [⟨rowid, docId, titleSeg, contentSeg, f.path⟩],
        lastInsertRowid := rowid }

/-- The per-file body of the scan loop in `full_reindex`
(`app/indexer.py` lines 245-251): an exception from `index_file` is
logged and the file skipped, leaving the database as it was. -/
def reindexStep (d : DBState) (f : MdFile) : DBState :=
  (index_file d f).getD d

/-- `full_reindex` (`app/indexer.py` lines 222-251): delete every row of
both tables (a SQL DELETE does not reset the AUTOINCREMENT counter nor
the connection's last-insert rowid), then index each scanned file,
skipping any whose `index_file` call raises. -/
def full_reindex (db : DBState) (files : List MdFile) : DBState :=
  let cleared : DBState :=
    { docs := [], fts := [], seq := db.seq,
      lastInsertRowid := db.lastInsertRowid }
  files.foldl reindexStep cleared

/-- `remove_file_from_index` (`app/indexer.py` lines 254-286): look the
path up in `docs`; when present delete the FTS rows carrying that id and
then the docs row itself; otherwise do nothing. -/
def remove_file_from_index (db : DBState) (p : String) : DBState :=
  match db.docs.find? (fun d => d.path == p) with
  | none => db
  | some d =>
    { db with
      fts := db.fts.filter (fun r => !(r.doc_id == d.id)),
      docs := db.docs.filter (fun r => !(r.id == d.id)) }

/-- One row of the result set built by `search_documents`
(`app/search_service.py` lines 178-187). -/
structure SearchRow where
  id : Nat
  title : String
  path : String
  snippet : String
  rank : Int
deriving DecidableEq

/-- Comparison realised by `ORDER BY rank`: ascending bm25 value.  FTS5's
`bm25()` returns more-negative numbers for more relevant rows, so
ascending order is most-relevant-first. -/
def rankLE (a b : SearchRow) : Prop := a.rank ≤ b.rank

instance : DecidableRel rankLE := fun a b => Int.decLe a.rank b.rank

instance : IsTotal SearchRow rankLE := ⟨fun a b => Int.le_total a.rank b.rank⟩

instance : IsTrans SearchRow rankLE := ⟨fun _ _ _ h h2 => le_trans h h2⟩

/-- `search_documents` (`app/search_service.py` lines 98-193).  The FTS5
`MATCH` predicate applied to the segmented query, the `bm25` rank and the
`snippet` function live inside SQLite and appear here as the abstract
parameters `matchQ`, `bm25` and `snip`; `maxLimit` is
`settings.max_search_limit`.  The count query computes the total over the
matching FTS rows without a join; the page query joins them to `docs` on
the document id, orders by ascending rank and applies OFFSET then LIMIT. -/
def search_documents (db : DBState) (matchQ : FtsRow → Bool)
    (bm25 : FtsRow → Int) (snip : FtsRow → String)
    (maxLimit lim off : Nat) : List SearchRow × Nat :=
  let limit := if lim > maxLimit then maxLimit else lim
  let total := (db.fts.filter matchQ).length
  let joined := (db.fts.filter matchQ).filterMap (fun fr =>
    (db.docs.find? (fun d => d.id == fr.doc_id)).map (fun d =>
      ⟨d.id, d.title, d.path, snip fr, bm25 fr⟩))
  let sorted := joined.insertionSort rankLE
  ((sorted.drop off).take limit, total)

/-- First indexing of path `A.md` (content version one). -/
def fileA1 : MdFile := ⟨"A.md", "A", some (some "A", "alpha one"), some 1, true⟩

/-- Indexing of a second path `B.md` on the same connection. -/
def fileB : MdFile := ⟨"B.md", "B", some (some "B", "beta two"), some 2, true⟩

/-- Re-indexing of path `A.md` (content version two). -/
def fileA2 : MdFile := ⟨"A.md", "A", some (some "A", "alpha two"), some 3, true⟩

/-- C2 (evaluation at the failing input): after indexing `A.md` and `B.md`
on one connection and then re-indexing `A.md`, the docs table is fine, but
`docs_fts` still carries the stale first version of `A.md` under doc id 1
while the new version was written under doc id 2 (B's id, taken from the
stale `cursor.lastrowid`), destroying B's postings — two postings rows for
`A.md` and none reflecting only the last indexed version under A's id. -/
theorem c2_stale_postings :
    ((index_file emptyDB fileA1).bind (fun d => index_file d fileB)).bind
        (fun d => index_file d fileA2)
      = some
        { docs := [⟨1, "A.md", "A", "alpha two", 3⟩,
                   ⟨2, "B.md", "B", "beta two", 2⟩],
          fts := [⟨1, 1, "A", "alpha one", "A.md"⟩,
                  ⟨2, 2, "A", "alpha two", "A.md"⟩],
          seq := 2, lastInsertRowid := 2 } := by
  decide

theorem length_filterMap_of_isSome {α β : Type} (g : α → Option β) :
    ∀ l : List α, (∀ x ∈ l, (g x).isSome) →
      (l.filterMap g).length = l.length
  | [], _ => rfl
  | x :: xs, h => by
    have hx := h x (List.mem_cons_self x xs)
    cases hg : g x with
    | none => rw [hg] at hx; simp at hx
    | some b =>
      rw [List.filterMap_cons, hg]
      simp only [List.length_cons]
      rw [length_filterMap_of_isSome g xs
        (fun y hy => h y (List.mem_cons_of_mem x hy))]

/-- C3: when every matching postings row has a docs row (the index
consistency invariant), a query with conjunctive match count `K`, a limit
`1 ≤ L ≤ max_search_limit` and any offset returns `total = K`, a page of
`min L (K - offset)` results (Nat subtraction: `0` once `offset ≥ K`), and
an offset at or past `K` yields an empty page rather than an error. -/
theorem c3_pagination (db : DBState) (matchQ : FtsRow → Bool)
    (bm25 : FtsRow → Int) (snip : FtsRow → String) (maxLimit lim off : Nat)
    (hcons : ∀ fr ∈ db.fts, matchQ fr = true →
      ((db.docs.find? (fun d => d.id == fr.doc_id)).isSome = true))
    (_h1 : 1 ≤ lim) (h2 : lim ≤ maxLimit) :
    (search_documents db matchQ bm25 snip maxLimit lim off).2
        = (db.fts.filter matchQ).length ∧
    ((search_documents db matchQ bm25 snip maxLimit lim off).1).length
        = min lim ((db.fts.filter matchQ).length - off) ∧
    ((db.fts.filter matchQ).length ≤ off →
      (search_documents db matchQ bm25 snip maxLimit lim off).1 = []) := by
  have hcap : (if lim > maxLimit then maxLimit else lim) = lim :=
    if_neg (by omega)
  have hjoined : ((db.fts.filter matchQ).filterMap (fun fr =>
      (db.docs.find? (fun d => d.id == fr.doc_id)).map (fun d =>
        (⟨d.id, d.title, d.path, snip fr, bm25 fr⟩ : SearchRow)))).length
      = (db.fts.filter matchQ).length := by
    apply length_filterMap_of_isSome
    intro fr hfr
    have hmem := List.mem_of_mem_filter hfr
    have hmq := List.of_mem_filter hfr
    have := hcons fr hmem hmq
    cases hfind : db.docs.find? (fun d => d.id == fr.doc_id) with
    | none => rw [hfind] at this; simp at this
    | some d => simp
  refine ⟨rfl, ?_, ?_⟩
  · show ((((db.fts.filter matchQ).filterMap _).insertionSort rankLE).drop
        off |>.take (if lim > maxLimit then maxLimit else lim)).length = _
    rw [hcap, List.length_take, List.length_drop,
      List.length_insertionSort, hjoined]
  · intro hoff
    show ((((db.fts.filter matchQ).filterMap _).insertionSort rankLE).drop
        off |>.take (if lim > maxLimit then maxLimit else lim)) = []
    have hlen : (((db.fts.filter matchQ).filterMap (fun fr =>
        (db.docs.find? (fun d => d.id == fr.doc_id)).map (fun d =>
          (⟨d.id, d.title, d.path, snip fr, bm25 fr⟩ : SearchRow)))).insertionSort
        rankLE).length ≤ off := by
      rw [List.length_insertionSort, hjoined]
      exact hoff
    rw [List.drop_eq_nil_of_le hlen]
    simp

/-- Concrete two-document database used to instantiate the search
theorems. -/
def dbC3 : DBState :=
  { docs := [⟨1, "a.md", "A", "", 1⟩, ⟨2, "b.md", "B", "", 2⟩],
    fts := [⟨1, 1, "A", "x y", "a.md"⟩, ⟨2, 2, "B", "x z", "b.md"⟩],
    seq := 2, lastInsertRowid := 2 }

/-- Witness for C3: on a two-match query with limit 1 and offset 1, the
total is 2 and the page holds exactly one result. -/
theorem c3_witness :
    (search_documents dbC3 (fun _ => true) (fun _ => 0) (fun _ => "")
        100 1 1).2 = 2 ∧
    ((search_documents dbC3 (fun _ => true) (fun _ => 0) (fun _ => "")
        100 1 1).1).length = 1 := by
  have h := c3_pagination dbC3 (fun _ => true) (fun _ => 0) (fun _ => "")
    100 1 1 (by decide) (by decide) (by decide)
  refine ⟨h.1.trans (by decide), h.2.1.trans (by decide)⟩

/-- Whether a list of document ids is in ascending (non-decreasing)
order. -/
def nondecreasing : List Nat → Bool
  | [] => true
  | [_] => true
  | a :: b :: t => decide (a ≤ b) && nondecreasing (b :: t)

/-- Database in which `a.md` was re-indexed after `b.md`, so its postings
row sits after B's in FTS scan order while its document id is smaller. -/
def dbTie : DBState :=
  { docs := [⟨1, "a.md", "A", "", 1⟩, ⟨2, "b.md", "B", "", 2⟩],
    fts := [⟨2, 2, "B", "beta", "b.md"⟩, ⟨3, 1, "A", "alpha", "a.md"⟩],
    seq := 2, lastInsertRowid := 3 }

/-- C6 counterexample: on a query where both documents receive the same
bm25 score, `search_documents` returns the ids in FTS scan order `[2, 1]`,
which is not ascending — the SQL has no document-id tie-break. -/
theorem c6_counterexample :
    ((search_documents dbTie (fun _ => true) (fun _ => 0) (fun _ => "")
        100 20 0).1.map (fun r => r.rank)) = [0, 0] ∧
    ((search_documents dbTie (fun _ => true) (fun _ => 0) (fun _ => "")
        100 20 0).1.map (fun r => r.id)) = [2, 1] ∧
    nondecreasing [2, 1] = false := by
  decide

/-- C6 (amended): every page returned by `search_documents` is sorted by
ascending bm25 rank (FTS5's smaller-is-more-relevant convention, so most
relevant first); the order of equal-rank rows is the FTS scan order (a
stable sort), not the ascending-document-id order the specification
asks for. -/
theorem c6_amended_sorted (db : DBState) (matchQ : FtsRow → Bool)
    (bm25 : FtsRow → Int) (snip : FtsRow → String)
    (maxLimit lim off : Nat) :
    List.Sorted rankLE
      (search_documents db matchQ bm25 snip maxLimit lim off).1 := by
  have hsorted : List.Sorted rankLE
      (((db.fts.filter matchQ).filterMap (fun fr =>
        (db.docs.find? (fun d => d.id == fr.doc_id)).map (fun d =>
          (⟨d.id, d.title, d.path, snip fr, bm25 fr⟩ : SearchRow)))).insertionSort
        rankLE) :=
    List.sorted_insertionSort rankLE _
  exact List.Pairwise.sublist
    ((List.take_sublist _ _).trans (List.drop_sublist _ _)) hsorted

theorem index_file_docs_paths (db : DBState) (f : MdFile) :
    (reindexStep db f).docs.map (fun d => d.path)
        = db.docs.map (fun d => d.path) ∨
    (reindexStep db f).docs.map (fun d => d.path)
        = db.docs.map (fun d => d.path) ++ [f.path] := by
  unfold reindexStep index_file
  by_cases hsec : f.secOk = false
  · rw [if_pos hsec]
    left
    rfl
  · rw [if_neg hsec]
    cases hm : f.mtime with
    | none => left; rfl
    | some m =>
      simp only [Option.getD_some]
      unfold upsertDocs
      cases hfind : db.docs.find? (fun d => d.path == f.path) with
      | some d0 =>
        left
        simp only [List.map_map]
        apply List.map_congr_left
        intro d _
        simp only [Function.comp]
        split <;> rfl
      | none =>
        right
        simp

theorem index_file_adds_path (db : DBState) (f : MdFile)
    (hsec : f.secOk = true) (hm : f.mtime.isSome = true) :
    f.path ∈ (reindexStep db f).docs.map (fun d => d.path) := by
  unfold reindexStep index_file
  rw [if_neg (by rw [hsec]; simp)]
  cases hmt : f.mtime with
  | none => rw [hmt] at hm; simp at hm
  | some m =>
    simp only [Option.getD_some]
    unfold upsertDocs
    cases hfind : db.docs.find? (fun d => d.path == f.path) with
    | some d0 =>
      have hd0 : d0 ∈ db.docs := List.mem_of_find?_eq_some hfind
      have hd0p := List.find?_some hfind
      have heq : d0.path = f.path := by
        simp only [] at hd0p
        exact beq_iff_eq.mp hd0p
      simp only [List.map_map]
      apply List.mem_map.mpr
      refine ⟨d0, hd0, ?_⟩
      simp only [Function.comp]
      split <;> exact heq
    | none => simp

theorem reindex_paths_monotone :
    ∀ (files : List MdFile) (db : DBState) (p : String),
      p ∈ db.docs.map (fun d => d.path) →
      p ∈ (files.foldl reindexStep db).docs.map (fun d => d.path)
  | [], _, _, h => h
  | f :: fs, db, p, h => by
    rw [List.foldl_cons]
    apply reindex_paths_monotone fs
    rcases index_file_docs_paths db f with hc | hc
    · rw [hc]; exact h
    · rw [hc]; exact List.mem_append_left _ h

theorem reindex_paths_adds :
    ∀ (files : List MdFile) (db : DBState) (f : MdFile),
      f ∈ files → f.secOk = true → f.mtime.isSome = true →
      f.path ∈ (files.foldl reindexStep db).docs.map (fun d => d.path)
  | [], _, f, h, _, _ => absurd h (List.not_mem_nil f)
  | g :: fs, db, f, hmem, hsec, hm => by
    rw [List.foldl_cons]
    rcases List.mem_cons.mp hmem with heq | htail
    · subst heq
      exact reindex_paths_monotone fs _ _ (index_file_adds_path db f hsec hm)
    · exact reindex_paths_adds fs _ f htail hsec hm

theorem reindex_paths_origin :
    ∀ (files : List MdFile) (db : DBState) (q : String),
      q ∈ (files.foldl reindexStep db).docs.map (fun d => d.path) →
      (∃ g ∈ files, g.path = q) ∨ q ∈ db.docs.map (fun d => d.path)
  | [], _, _, h => Or.inr h
  | f :: fs, db, q, h => by
    rw [List.foldl_cons] at h
    rcases reindex_paths_origin fs _ q h with hfs | hdb
    · left
      obtain ⟨g, hg, hgq⟩ := hfs
      exact ⟨g, List.mem_cons_of_mem f hg, hgq⟩
    · rcases index_file_docs_paths db f with hc | hc
      · rw [hc] at hdb
        exact Or.inr hdb
      · rw [hc] at hdb
        rcases List.mem_append.mp hdb with h1 | h1
        · exact Or.inr h1
        · exact Or.inl ⟨f, List.mem_cons_self f fs,
            (List.mem_singleton.mp h1).symm⟩

/-- Parse-failing file used in the C7 scenario: frontmatter parsing
raises, but the file is readable and its mtime is available. -/
def fileBad : MdFile := ⟨"bad.md", "bad", none, some 5, true⟩

/-- Healthy file indexed after the failing one. -/
def fileGood : MdFile := ⟨"good.md", "good", some (some "Good", "hello"), some 6, true⟩

/-- C7 counterexample: scanning a parse-failing file followed by a healthy
one, `full_reindex` indexes BOTH — the parse-failing file is not skipped;
`extract_text_from_md` swallows the exception and the file is indexed with
fallback fields (stem title, empty summary). -/
theorem c7_counterexample :
    ((full_reindex emptyDB [fileBad, fileGood]).docs.map
        (fun d => (d.path, d.title, d.summary)))
      = [("bad.md", "bad", ""), ("good.md", "Good", "hello")] := by
  decide

/-- C7 (amended): a parse failure never aborts the scan: `full_reindex`
always completes, every file whose path validates and whose mtime is
readable ends up indexed — including parse-failing files, which are
indexed with fallback fields rather than skipped — and every indexed path
comes from the scanned file list.  Only a file whose `index_file` call
itself raises (mtime read on a vanished file) is skipped. -/
theorem c7_amended (db : DBState) (files : List MdFile) (f : MdFile)
    (hf : f ∈ files) (hsec : f.secOk = true) (hm : f.mtime.isSome = true) :
    f.path ∈ (full_reindex db files).docs.map (fun d => d.path) ∧
    ∀ q ∈ (full_reindex db files).docs.map (fun d => d.path),
      ∃ g ∈ files, g.path = q := by
  constructor
  · exact reindex_paths_adds files _ f hf hsec hm
  · intro q hq
    rcases reindex_paths_origin files _ q hq with h | h
    · exact h
    · simp at h

/-- Witness for C7 (amended) at the concrete scan `[fileBad, fileGood]`:
the parse-failing file's path is indexed. -/
theorem c7_witness :
    "bad.md" ∈ (full_reindex emptyDB [fileBad, fileGood]).docs.map
      (fun d => d.path) :=
  (c7_amended emptyDB [fileBad, fileGood] fileBad
    (List.mem_cons_self _ _) rfl rfl).1

/-- C8: on a database whose paths are unique (the `docs.path` UNIQUE
constraint), removing a previously indexed path deletes its docs row and
every postings row carrying its document id while preserving every other
row, so a query whose matches all lay on that document afterwards returns
zero results; and removing a never-indexed path is a no-op that raises no
error. -/
theorem c8_remove (db : DBState) (p : String) (d : DocsRow)
    (hfind : db.docs.find? (fun r => r.path == p) = some d)
    (hnodup : (db.docs.map (fun r => r.path)).Nodup) :
    (remove_file_from_index db p).docs.filter (fun r => r.path == p) = [] ∧
    (remove_file_from_index db p).fts.filter
        (fun r => r.doc_id == d.id) = [] ∧
    (∀ r ∈ db.fts, r.doc_id ≠ d.id →
      r ∈ (remove_file_from_index db p).fts) ∧
    (∀ r ∈ db.docs, r.id ≠ d.id →
      r ∈ (remove_file_from_index db p).docs) ∧
    (∀ (matchQ : FtsRow → Bool) (bm25 : FtsRow → Int)
        (snip : FtsRow → String) (maxLimit lim off : Nat),
      (∀ fr ∈ db.fts, matchQ fr = true → fr.doc_id = d.id) →
      (search_documents (remove_file_from_index db p) matchQ bm25 snip
          maxLimit lim off).2 = 0) ∧
    (∀ (db' : DBState) (p' : String),
      db'.docs.find? (fun r => r.path == p') = none →
      remove_file_from_index db' p' = db') := by
  have hrm : remove_file_from_index db p =
      { db with
        fts := db.fts.filter (fun r => !(r.doc_id == d.id)),
        docs := db.docs.filter (fun r => !(r.id == d.id)) } := by
    unfold remove_file_from_index
    rw [hfind]
  have hdmem : d ∈ db.docs := List.mem_of_find?_eq_some hfind
  have hdp : d.path = p := by
    have h0 := List.find?_some hfind
    simp only [] at h0
    exact beq_iff_eq.mp h0
  refine ⟨?_, ?_, ?_, ?_, ?_, ?_⟩
  · rw [hrm]
    apply List.filter_eq_nil_iff.mpr
    intro r hr hpr
    have hr1 := List.mem_filter.mp hr
    have hrpath : r.path = p := beq_iff_eq.mp hpr
    have hrd : r = d :=
      List.inj_on_of_nodup_map hnodup hr1.1 hdmem (by rw [hrpath, hdp])
    have hneg := hr1.2
    rw [hrd] at hneg
    simp at hneg
  · rw [hrm]
    apply List.filter_eq_nil_iff.mpr
    intro r hr hmatch
    have hr1 := List.mem_filter.mp hr
    have hneg := hr1.2
    rw [hmatch] at hneg
    simp at hneg
  · intro r hr hne
    rw [hrm]
    apply List.mem_filter.mpr
    exact ⟨hr, by simp [hne]⟩
  · intro r hr hne
    rw [hrm]
    apply List.mem_filter.mpr
    exact ⟨hr, by simp [hne]⟩
  · intro matchQ bm25 snip maxLimit lim off hmq
    rw [hrm]
    show ((db.fts.filter (fun r => !(r.doc_id == d.id))).filter
      matchQ).length = 0
    rw [List.length_eq_zero]
    apply List.filter_eq_nil_iff.mpr
    intro r hr hm2
    have hr1 := List.mem_filter.mp hr
    have hdid : r.doc_id = d.id := hmq r hr1.1 hm2
    have hneg := hr1.2
    rw [hdid] at hneg
    simp at hneg
  · intro db' p' h'
    unfold remove_file_from_index
    rw [h']

/-- Concrete two-document database for the C8 witness. -/
def dbC8 : DBState :=
  { docs := [⟨1, "a.md", "A", "", 1⟩, ⟨2, "b.md", "B", "", 2⟩],
    fts := [⟨1, 1, "A", "alpha", "a.md"⟩, ⟨2, 2, "B", "beta", "b.md"⟩],
    seq := 2, lastInsertRowid := 2 }

/-- Witness for C8: removing `a.md` leaves no postings row with its
document id. -/
theorem c8_witness :
    (remove_file_from_index dbC8 "a.md").fts.filter
      (fun r => r.doc_id == (1 : Nat)) = [] := by
  have h := (c8_remove dbC8 "a.md" ⟨1, "a.md", "A", "", 1⟩ (by decide)
    (by decide)).2.1
  exact h

/-! Highlighter model: the query-highlighting pass of `get_document`
(`app/api.py` lines 240-363). -/

/-- Python regex word character (`\w`) restricted to the scripts this code
base handles: ASCII alphanumerics, underscore and CJK ideographs. -/
def isWordChar (c : Char) : Bool :=
  c.isAlphanum || c == '_' || isCJKChar c

/-- Case-insensitive character comparison modelling `re.IGNORECASE`. -/
def ciEq (a b : Char) : Bool := a.toLower == b.toLower

/-- Case-insensitive test that the keyword starts the given suffix of the
text. -/
def ciStarts : List Char → List Char → Bool
  | [], _ => true
  | _ :: _, [] => false
  | k :: ks, c :: cs => ciEq k c && ciStarts ks cs

/-- Word-ness of position `j` of `s` (`false` outside the string). -/
def wordAt (s : List Char) (j : Nat) : Bool :=
  match s.get? j with
  | some c => isWordChar c
  | none => false

/-- Regex `\b` at position `i` of `s`: the word-ness of the two adjacent
positions differs. -/
def boundaryAt (s : List Char) (i : Nat) : Bool :=
  (if i = 0 then false else wordAt s (i - 1)) != wordAt s i

/-- Intermediate opening marker `___MARK_START___`
(`app/api.py` line 297). -/
def msMark : List Char := "___MARK_START___".data

/-- Intermediate closing marker `___MARK_END___`
(`app/api.py` line 298). -/
def meMark : List Char := "___MARK_END___".data

/-- Python `sub in s` for character lists. -/
def containsSeq (pat s : List Char) : Bool :=
  (List.range (s.length + 1)).any (fun i => pat.isPrefixOf (s.drop i))

/-- Python `s.rfind(pat)`: highest index at which `pat` occurs, `-1` when
it never does. -/
def rfindSeq (pat s : List Char) : Int :=
  match ((List.range (s.length + 1)).filter
      (fun i => pat.isPrefixOf (s.drop i))).getLast? with
  | some i => (i : Int)
  | none => -1

/-- Python `str.count` for a single character. -/
def countChar (c : Char) (s : List Char) : Nat :=
  (s.filter (fun x => x == c)).length

/-- The guard of `replace_with_placeholder` / `replace_char`
(`app/api.py` lines 317-331 and 345-357): whether the candidate match
whose prefix is `before` may be wrapped.  The already-marked test looks
for the opening placeholder only within the LAST 50 characters of the
prefix (`text_before[max(0, len(text_before)-50):]`), then compares
full-string `rfind` positions; the in-tag test counts unmatched `<`. -/
def decideMark (before : List Char) : Bool :=
  if containsSeq msMark (before.drop (before.length - 50))
      && rfindSeq msMark before > rfindSeq meMark before then
    false
  else if countChar '<' before > countChar '>' before then
    false
  else true

/-- One pass of `pattern.sub(replace_with_placeholder, html_content)`:
scan for leftmost non-overlapping case-insensitive occurrences of the
keyword `k :: ks` (demanding `\b` boundaries on both sides when `bd` is
true), wrap each occurrence whose prefix passes `decideMark` in the
intermediate markers, and copy everything else.  `s` is the full input of
the pass — Python's closure evaluates `text_before` against it, not
against the partially built output — and `i` the current scan position. -/
def subGo (k : Char) (ks : List Char) (bd : Bool) (s : List Char) :
    Nat → List Char → Nat → List Char
  | 0, _, _ => []
  | _, [], _ => []
  | fuel + 1, c :: rest, i =>
    if ciStarts (k :: ks) (c :: rest)
        && (!bd || (boundaryAt s i && boundaryAt s (i + (ks.length + 1)))) then
      (if decideMark (s.take i) then
        msMark ++ (c :: rest).take (ks.length + 1) ++ meMark
      else (c :: rest).take (ks.length + 1))
      ++ subGo k ks bd s fuel (rest.drop ks.length) (i + (ks.length + 1))
    else
      c :: subGo k ks bd s fuel rest (i + 1)

/-- One keyword pass over the whole text; `bd` selects the Latin
word-boundary pattern `\b(kw)\b` over the plain pattern `(kw)`.  The scan
is driven by a fuel argument, initialised to the text length; every step
consumes at least one character, so the fuel never runs out. -/
def applyPass (bd : Bool) (kw s : List Char) : List Char :=
  match kw with
  | [] => s
  | k :: ks => subGo k ks bd s s.length s 0

/-- `has_chinese` (`app/api.py` line 307). -/
def hasChinese (kw : List Char) : Bool := kw.any isCJKChar

/-- Phrase extraction (`app/api.py` lines 258-273): split the query on
`' \t\n\r'`, keeping only chunks longer than one character. -/
def phrasesGo : List Char → List Char → List (List Char)
  | [], cur => if cur.length > 1 then [cur] else []
  | c :: cs, cur =>
    if isSegWS c then
      (if cur.length > 1 then [cur] else []) ++ phrasesGo cs []
    else phrasesGo cs (cur ++ [c])

/-- Python `str.replace` scanning: leftmost, non-overlapping replacement
of a non-empty pattern, fuel-driven like `subGo`. -/
def replaceGo (p : Char) (ps rep : List Char) : Nat → List Char → List Char
  | 0, _ => []
  | _, [] => []
  | fuel + 1, c :: rest =>
    if (p :: ps).isPrefixOf (c :: rest) then
      rep ++ replaceGo p ps rep fuel (rest.drop ps.length)
    else c :: replaceGo p ps rep fuel rest

/-- Python `str.replace(pat, rep)`. -/
def replaceSeq (pat rep s : List Char) : List Char :=
  match pat with
  | [] => s
  | p :: ps => replaceGo p ps rep s.length s

/-- The query-highlighting pass of `get_document` (`app/api.py` lines
240-363), applied to the rendered HTML when a non-blank `q` is supplied:
build the priority keyword list (the whitespace-normalised full query,
then each multi-character phrase, then the deduplicated single CJK
characters), wrap matches of the full/phrase keywords in intermediate
markers — plain substring matching when the keyword contains CJK,
word-boundary matching otherwise — fall back to the single-character
keywords only when nothing was marked, and finally rewrite the markers to
`<mark>` / `</mark>`.  Python deduplicates the single characters through
a `set`; its iteration order is modelled as first occurrence. -/
def highlightQuery (html q : List Char) : List Char :=
  if pyStrip q = [] then html
  else
    let query := pyStrip q
    let fullQ := List.intercalate [' '] (pySplit query)
    let kws := (if fullQ ≠ [] then [fullQ] else []) ++ phrasesGo query []
    let h1 := kws.foldl (fun h kw => applyPass (!hasChinese kw) kw h) html
    let h2 :=
      if containsSeq msMark h1 then h1
      else (query.filter isCJKChar).dedup.foldl
        (fun h c => applyPass false [c] h) h1
    replaceSeq meMark ("</mark>".data) (replaceSeq msMark ("<mark>".data) h2)

/-- Fuel-driven scanner for the final markup; the fuel is initialised to
the text length and every step consumes at least one character. -/
def marksScan : Nat → List Char → Bool → Bool
  | 0, _, opened => !opened
  | _ + 1, [], opened => !opened
  | fuel + 1, c :: rest, opened =>
    if ("<mark>".data).isPrefixOf (c :: rest) then
      !opened && marksScan fuel ((c :: rest).drop 6) true
    else if ("</mark>".data).isPrefixOf (c :: rest) then
      opened && marksScan fuel ((c :: rest).drop 7) false
    else marksScan fuel rest opened

/-- Whether the final markup has well-formed highlight spans: every
`<mark>` is closed by a `</mark>` before the next `<mark>` opens and no
`</mark>` appears unopened — the no-nesting / no-overlap shape. -/
def marksWellFormed (l : List Char) (opened : Bool) : Bool :=
  marksScan l.length l opened

/-- Document HTML for the C4 failing input: 34 ideographs, a space, and a
two-ideograph word. -/
def c4Html : List Char := List.replicate 34 '中' ++ (' ' :: "机器".data)

/-- C4 (evaluation at the failing input): highlighting the document with
the query equal to its own text first marks the whole 37-character match,
and the later phrase pass for `机器` then marks again inside that span —
the opening placeholder lies more than 50 characters back, so the
windowed already-marked check misses it — producing nested `<mark>` tags:
the final output fails the no-nesting / no-overlap scan. -/
theorem c4_nested_marks :
    marksWellFormed (highlightQuery c4Html c4Html) false = false := by
  decide
